import Mathlib

/-!
Verification of `invert_logo.py`: a program that decodes an image file into
an RGBA pixel buffer, replaces each RGB channel of every non-fully-transparent
pixel by `255 - value`, and writes the buffer back to the same path, reporting
success or a caught error on standard output.

The embedding models pixel channels as `Int` (Python integers), the pixel
buffer as a list in row-major order, and the filesystem as an association
list from paths to file contents, with an explicit flag for write success.
-/

namespace InvertLogo

/-- An RGBA pixel: a 4-tuple of channel values.  Channels are Python
integers; a pixel decoded from an 8-bit image satisfies `Pixel.valid`. -/
structure Pixel where
  r : Int
  g : Int
  b : Int
  a : Int
deriving DecidableEq, Repr

/-- All four channels are 8-bit unsigned values. -/
def Pixel.valid (p : Pixel) : Prop :=
  0 ≤ p.r ∧ p.r ≤ 255 ∧ 0 ≤ p.g ∧ p.g ≤ 255 ∧
  0 ≤ p.b ∧ p.b ≤ 255 ∧ 0 ≤ p.a ∧ p.a ≤ 255

instance (p : Pixel) : Decidable p.valid := by
  unfold Pixel.valid; infer_instance

/-- The per-item body of the loop in `invert_image`: if the pixel is fully
transparent (`item[3] == 0`) keep it, else invert the RGB channels as
`255 - value` and keep the alpha channel. -/
def invertItem (item : Pixel) : Pixel :=
  if item.a = 0 then item
  else ⟨255 - item.r, 255 - item.g, 255 - item.b, item.a⟩

/-- The loop of `invert_image`: build `new_data` by appending the transform
of each item of `datas` in order. -/
def newData : List Pixel → List Pixel
  | [] => []
  | item :: rest => invertItem item :: newData rest

/-- A decoded pixel before conversion to RGBA, in one of the channel
layouts a source file may use (truecolor with or without alpha, grayscale
with or without alpha). -/
inductive RawPixel where
  | rgba (r g b a : Int)
  | rgb (r g b : Int)
  | la (v a : Int)
  | l (v : Int)
deriving DecidableEq, Repr

/-- The channels of the raw pixel are 8-bit unsigned values. -/
def RawPixel.valid : RawPixel → Prop
  | .rgba r g b a =>
      0 ≤ r ∧ r ≤ 255 ∧ 0 ≤ g ∧ g ≤ 255 ∧ 0 ≤ b ∧ b ≤ 255 ∧ 0 ≤ a ∧ a ≤ 255
  | .rgb r g b => 0 ≤ r ∧ r ≤ 255 ∧ 0 ≤ g ∧ g ≤ 255 ∧ 0 ≤ b ∧ b ≤ 255
  | .la v a => 0 ≤ v ∧ v ≤ 255 ∧ 0 ≤ a ∧ a ≤ 255
  | .l v => 0 ≤ v ∧ v ≤ 255

instance (rp : RawPixel) : Decidable rp.valid := by
  cases rp <;> (unfold RawPixel.valid; infer_instance)

/-- Modelled from the spec: the per-pixel action of `img.convert("RGBA")`
(the library call on line 7, whose code is not part of this repository) —
"convert to RGBA if the source uses a different channel layout/depth".
Missing channels are filled: alpha becomes fully opaque, grayscale is
replicated across red, green and blue. -/
def RawPixel.toRGBA : RawPixel → Pixel
  | .rgba r g b a => ⟨r, g, b, a⟩
  | .rgb r g b => ⟨r, g, b, 255⟩
  | .la v a => ⟨v, v, v, a⟩
  | .l v => ⟨v, v, v, 255⟩

/-- A decoded image before conversion: dimensions and a row-major pixel
buffer in the source file layout. -/
structure RawImage where
  width : Nat
  height : Nat
  data : List RawPixel
deriving DecidableEq, Repr

/-- An in-memory RGBA image: dimensions and a row-major RGBA pixel buffer. -/
structure Image where
  width : Nat
  height : Nat
  data : List Pixel
deriving DecidableEq, Repr

/-- Modelled from the spec: `img.convert("RGBA")` on a whole image —
dimensions are kept, every pixel is converted to an RGBA 4-tuple. -/
def convertRGBA (img : RawImage) : Image :=
  ⟨img.width, img.height, img.data.map RawPixel.toRGBA⟩

/-- `img.putdata(new_data)` after the loop: the image keeps its dimensions
and its buffer is replaced by `new_data`. -/
def transformImage (img : Image) : Image :=
  ⟨img.width, img.height, newData img.data⟩

/-- Re-encoding for `img.save`: the RGBA buffer is written back with
unchanged dimensions, every pixel stored in the RGBA layout. -/
def encodeImage (img : Image) : RawImage :=
  ⟨img.width, img.height, img.data.map (fun p => RawPixel.rgba p.r p.g p.b p.a)⟩

/-- Contents of a file: either a decodable image, or bytes that no image
decoder accepts. -/
inductive FileContent where
  | image (img : RawImage)
  | raw (bytes : List Nat)
deriving DecidableEq, Repr

/-- `Image.open` succeeds exactly on decodable image files. -/
def decodeFile : FileContent → Option RawImage
  | .image img => some img
  | .raw _ => none

/-- The filesystem: an association list from paths to file contents. -/
abbrev FS := List (String × FileContent)

/-- Look a path up in the filesystem. -/
def lookupFile : FS → String → Option FileContent
  | [], _ => none
  | (p, c) :: rest, q => if p = q then some c else lookupFile rest q

/-- Overwrite the file at a path. -/
def setFile (fs : FS) (path : String) (c : FileContent) : FS :=
  (path, c) :: fs

/-- The single line the program prints: a success message naming the
processed path, or an error message naming the caught error. -/
inductive Msg where
  | success (path : String)
  | error (e : String)
deriving DecidableEq, Repr

/-- The body of the `try` block of `invert_image`: open the file, convert
to RGBA, build `new_data`, put it back and save.  Each failing step raises,
modelled by `Except.error` carrying the exception text; `writeOk` models
whether the filesystem write succeeds. -/
def tryBody (fs : FS) (path : String) (writeOk : Bool) :
    Except String (FS × String) :=
  match lookupFile fs path with
  | none => Except.error "FileNotFoundError"
  | some content =>
    match decodeFile content with
    | none => Except.error "UnidentifiedImageError"
    | some raw =>
      let img := transformImage (convertRGBA raw)
      if writeOk then
        Except.ok (setFile fs path (FileContent.image (encodeImage img)), path)
      else Except.error "OSError"

/-- `invert_image`: run the pipeline inside `try`; on success print the
success message for the path, on any exception catch it at the top level
and print an error message instead, leaving the filesystem as it was. -/
def invert_image (fs : FS) (path : String) (writeOk : Bool) : FS × Msg :=
  match tryBody fs path writeOk with
  | Except.ok (fs2, p) => (fs2, Msg.success p)
  | Except.error e => (fs, Msg.error e)

/-! ### Helper lemmas -/

/-- The loop is the pointwise map of `invertItem`. -/
theorem newData_eq_map (l : List Pixel) : newData l = l.map invertItem := by
  induction l with
  | nil => rfl
  | cons x xs ih => simp [newData, ih]

theorem newData_length (l : List Pixel) : (newData l).length = l.length := by
  simp [newData_eq_map]

theorem newData_get? (l : List Pixel) (i : Nat) :
    (newData l).get? i = (l.get? i).map invertItem := by
  simp [newData_eq_map, List.get?_map]

theorem invertItem_invertItem (p : Pixel) : invertItem (invertItem p) = p := by
  unfold invertItem
  by_cases h : p.a = 0
  · simp [h]
  · simp [h]

/-- Re-decoding a saved RGBA buffer gives back the same RGBA buffer. -/
theorem convertRGBA_encodeImage (img : Image) :
    convertRGBA (encodeImage img) = img := by
  cases img with
  | mk w h d =>
    simp only [convertRGBA, encodeImage, List.map_map]
    have hc : (RawPixel.toRGBA ∘ fun p : Pixel =>
        RawPixel.rgba p.r p.g p.b p.a) = id := funext fun p => rfl
    rw [hc, List.map_id]

theorem lookupFile_setFile (fs : FS) (path : String) (c : FileContent) :
    lookupFile (setFile fs path c) path = some c := by
  simp [setFile, lookupFile]

end InvertLogo

namespace InvertLogo

/-! ### Claims -/

/-- C1: for every pixel with nonzero alpha, the transform replaces each RGB
channel by 255 minus its value and preserves the alpha channel. -/
theorem invertItem_alpha_nonzero (p : Pixel) (h : p.a ≠ 0) :
    invertItem p = ⟨255 - p.r, 255 - p.g, 255 - p.b, p.a⟩ := by
  simp [invertItem, h]

/-- C1 witness: opaque white becomes opaque black, and half-transparent
black becomes half-transparent white. -/
theorem invertItem_alpha_nonzero_witness :
    invertItem ⟨255, 255, 255, 255⟩ = ⟨0, 0, 0, 255⟩ ∧
    invertItem ⟨0, 0, 0, 128⟩ = ⟨255, 255, 255, 128⟩ := by
  constructor
  · have h := invertItem_alpha_nonzero ⟨255, 255, 255, 255⟩ (by decide)
    rw [h]; decide
  · have h := invertItem_alpha_nonzero ⟨0, 0, 0, 128⟩ (by decide)
    rw [h]; decide

/-- C2: a fully transparent pixel is emitted completely unchanged. -/
theorem invertItem_alpha_zero (p : Pixel) (h : p.a = 0) :
    invertItem p = p := by
  simp [invertItem, h]

/-- C2 witness: the transparent pixel (10,20,30,0) passes through
unchanged. -/
theorem invertItem_alpha_zero_witness :
    invertItem ⟨10, 20, 30, 0⟩ = ⟨10, 20, 30, 0⟩ :=
  invertItem_alpha_zero ⟨10, 20, 30, 0⟩ (by decide)

/-- C3: the buffer transform is an involution — applying it twice to any
pixel buffer restores the original buffer, because
`invertItem (invertItem p) = p` for every pixel. -/
theorem newData_involution (l : List Pixel) : newData (newData l) = l := by
  induction l with
  | nil => rfl
  | cons x xs ih => simp [newData, ih, invertItem_invertItem]

/-- C4: on a successful run, the written image keeps the decoded image's
width, height and pixel count, and pixel `i` of the output buffer is the
transform of pixel `i` of the decoded RGBA buffer. -/
theorem invert_image_preserves_dims (fs : FS) (path : String)
    (content : FileContent) (raw : RawImage)
    (hl : lookupFile fs path = some content)
    (hd : decodeFile content = some raw) :
    ∃ out : RawImage,
      lookupFile (invert_image fs path true).1 path =
        some (FileContent.image out) ∧
      out.width = raw.width ∧ out.height = raw.height ∧
      out.data.length = raw.data.length ∧
      ∀ i : Nat, ((convertRGBA out).data).get? i =
        ((convertRGBA raw).data.get? i).map invertItem := by
  refine ⟨encodeImage (transformImage (convertRGBA raw)), ?_, rfl, rfl, ?_, ?_⟩
  · simp [invert_image, tryBody, hl, hd, lookupFile_setFile]
  · simp [encodeImage, transformImage, convertRGBA, newData_length]
  · intro i
    rw [convertRGBA_encodeImage]
    exact newData_get? _ i

/-- Sample one-pixel image used by concrete witnesses. -/
def sampleRaw : RawImage := ⟨1, 1, [RawPixel.rgba 10 20 30 255]⟩

/-- Sample filesystem holding the sample image at "logo.png". -/
def sampleFS : FS := [("logo.png", FileContent.image sampleRaw)]

/-- C4 witness: the sample image keeps its 1×1 dimensions and pixel count
through a successful run. -/
theorem invert_image_preserves_dims_witness :
    ∃ out : RawImage,
      lookupFile (invert_image sampleFS "logo.png" true).1 "logo.png" =
        some (FileContent.image out) ∧
      out.width = sampleRaw.width ∧ out.height = sampleRaw.height ∧
      out.data.length = sampleRaw.data.length ∧
      ∀ i : Nat, ((convertRGBA out).data).get? i =
        ((convertRGBA sampleRaw).data.get? i).map invertItem :=
  invert_image_preserves_dims sampleFS "logo.png"
    (FileContent.image sampleRaw) sampleRaw (by decide) rfl

/-- C5: for every filesystem, path and write outcome, `invert_image`
returns normally with exactly one printed line — either the success message
for the path, or an error message for the single caught exception with the
filesystem left unchanged; no exception propagates to the caller. -/
theorem invert_image_total (fs : FS) (path : String) (writeOk : Bool) :
    (∃ fs2, invert_image fs path writeOk = (fs2, Msg.success path)) ∨
    (∃ e, invert_image fs path writeOk = (fs, Msg.error e)) := by
  cases hl : lookupFile fs path with
  | none =>
    right
    exact ⟨"FileNotFoundError", by simp [invert_image, tryBody, hl]⟩
  | some content =>
    cases hd : decodeFile content with
    | none =>
      right
      exact ⟨"UnidentifiedImageError", by simp [invert_image, tryBody, hl, hd]⟩
    | some raw =>
      cases writeOk with
      | false =>
        right
        exact ⟨"OSError", by simp [invert_image, tryBody, hl, hd]⟩
      | true =>
        left
        exact ⟨setFile fs path
          (FileContent.image (encodeImage (transformImage (convertRGBA raw)))),
          by simp [invert_image, tryBody, hl, hd]⟩

/-- C6: on a path with no file, `invert_image` reports an error and leaves
the filesystem unchanged — in particular no file is created at that path. -/
theorem invert_image_missing_file (fs : FS) (path : String) (writeOk : Bool)
    (h : lookupFile fs path = none) :
    (∃ e, invert_image fs path writeOk = (fs, Msg.error e)) ∧
    lookupFile (invert_image fs path writeOk).1 path = none := by
  constructor
  · exact ⟨"FileNotFoundError", by simp [invert_image, tryBody, h]⟩
  · simp [invert_image, tryBody, h]

/-- C6 witness: on the empty filesystem, "missing.png" yields an error and
still has no file afterwards. -/
theorem invert_image_missing_file_witness :
    (∃ e, invert_image [] "missing.png" true = ([], Msg.error e)) ∧
    lookupFile (invert_image [] "missing.png" true).1 "missing.png" = none :=
  invert_image_missing_file [] "missing.png" true rfl

/-- C7: the success message naming the path is printed exactly when the
file exists, decodes, and the write succeeds — and then the file at the
path has been overwritten with the transformed image; a success line and an
error line are never printed together. -/
theorem invert_image_success_iff (fs : FS) (path : String) (writeOk : Bool) :
    ((invert_image fs path writeOk).2 = Msg.success path ↔
      writeOk = true ∧ ∃ content raw,
        lookupFile fs path = some content ∧ decodeFile content = some raw ∧
        (invert_image fs path writeOk).1 =
          setFile fs path
            (FileContent.image (encodeImage (transformImage (convertRGBA raw))))) ∧
    ¬ ((invert_image fs path writeOk).2 = Msg.success path ∧
       ∃ e, (invert_image fs path writeOk).2 = Msg.error e) := by
  constructor
  · constructor
    · intro hs
      cases hl : lookupFile fs path with
      | none => simp [invert_image, tryBody, hl] at hs
      | some content =>
        cases hd : decodeFile content with
        | none => simp [invert_image, tryBody, hl, hd] at hs
        | some raw =>
          cases writeOk with
          | false => simp [invert_image, tryBody, hl, hd] at hs
          | true =>
            exact ⟨rfl, content, raw, rfl, hd,
              by simp [invert_image, tryBody, hl, hd]⟩
    · rintro ⟨hw, content, raw, hl, hd, _⟩
      subst hw
      simp [invert_image, tryBody, hl, hd]
  · rintro ⟨hs, e, he⟩
    rw [hs] at he
    exact Msg.noConfusion he

/-- C7 witness: the biconditional and exclusivity instantiated at the
sample filesystem, where the run succeeds. -/
theorem invert_image_success_iff_witness :
    ((invert_image sampleFS "logo.png" true).2 = Msg.success "logo.png" ↔
      true = true ∧ ∃ content raw,
        lookupFile sampleFS "logo.png" = some content ∧
        decodeFile content = some raw ∧
        (invert_image sampleFS "logo.png" true).1 =
          setFile sampleFS "logo.png"
            (FileContent.image (encodeImage (transformImage (convertRGBA raw))))) ∧
    ¬ ((invert_image sampleFS "logo.png" true).2 = Msg.success "logo.png" ∧
       ∃ e, (invert_image sampleFS "logo.png" true).2 = Msg.error e) :=
  invert_image_success_iff sampleFS "logo.png" true

/-- C8: after conversion to RGBA, every pixel the transform visits is a
4-tuple of 8-bit unsigned channel values, whatever the source layout was. -/
theorem convertRGBA_pixels_valid (img : RawImage)
    (h : ∀ rp ∈ img.data, rp.valid) :
    ∀ p ∈ (convertRGBA img).data, p.valid := by
  intro p hp
  simp [convertRGBA] at hp
  obtain ⟨rp, hrp, hconv⟩ := hp
  have hv := h rp hrp
  subst hconv
  cases rp <;> simp [RawPixel.toRGBA, Pixel.valid, RawPixel.valid] at hv ⊢ <;>
    omega

/-- C8 witness: a mixed-layout one-row image converts to all-valid RGBA
pixels. -/
theorem convertRGBA_pixels_valid_witness :
    (∀ rp ∈ (⟨4, 1, [RawPixel.rgb 1 2 3, RawPixel.l 7,
        RawPixel.la 9 0, RawPixel.rgba 10 20 30 255]⟩ : RawImage).data,
      rp.valid) ∧
    ∀ p ∈ (convertRGBA ⟨4, 1, [RawPixel.rgb 1 2 3, RawPixel.l 7,
        RawPixel.la 9 0, RawPixel.rgba 10 20 30 255]⟩).data, p.valid :=
  ⟨by decide, convertRGBA_pixels_valid _ (by decide)⟩

/-- C9: the inversion neither overflows nor underflows — every output
channel of a valid pixel is again in [0, 255], so the output pixel is a
valid 4-tuple of 8-bit unsigned integers. -/
theorem invertItem_valid (p : Pixel) (h : p.valid) :
    (invertItem p).valid := by
  obtain ⟨h1, h2, h3, h4, h5, h6, h7, h8⟩ := h
  unfold invertItem
  by_cases ha : p.a = 0 <;> simp [ha, Pixel.valid] <;> omega

/-- C9 witness: validity is preserved at the extreme pixel (0,255,0,255). -/
theorem invertItem_valid_witness :
    (Pixel.valid ⟨0, 255, 0, 255⟩) ∧ (invertItem ⟨0, 255, 0, 255⟩).valid :=
  ⟨by decide, invertItem_valid ⟨0, 255, 0, 255⟩ (by decide)⟩

/-- C10: the buffer transform is a deterministic pointwise map — output
pixel `i` depends only on input pixel `i`: buffers agreeing at index `i`
transform to buffers agreeing at index `i`. -/
theorem newData_pointwise (l1 l2 : List Pixel) (i : Nat)
    (h : l1.get? i = l2.get? i) :
    (newData l1).get? i = (newData l2).get? i := by
  rw [newData_get?, newData_get?, h]

/-- C10 witness: two different buffers sharing pixel 1 transform to buffers
sharing pixel 1. -/
theorem newData_pointwise_witness :
    ([⟨1, 2, 3, 4⟩, ⟨9, 9, 9, 9⟩] : List Pixel).get? 1 =
      ([⟨5, 6, 7, 8⟩, ⟨9, 9, 9, 9⟩, ⟨0, 0, 0, 0⟩] : List Pixel).get? 1 ∧
    (newData [⟨1, 2, 3, 4⟩, ⟨9, 9, 9, 9⟩]).get? 1 =
      (newData [⟨5, 6, 7, 8⟩, ⟨9, 9, 9, 9⟩, ⟨0, 0, 0, 0⟩]).get? 1 :=
  ⟨by decide, newData_pointwise _ _ 1 (by decide)⟩

end InvertLogo
